import Mathlib

/-!
Verification of `breads/jwst_tools/PositiveEtalonModel.py`.

The module defines a single analytic curve-fitting model

    f( x : p ) = p_0 / ( 1 + p_1^2 * sin^2( pi * x * p_2 + p_3 ) )

together with its closed-form x-derivative (`baseDerivative`), its
closed-form partial derivatives with respect to the four parameters
(`basePartial`), and a per-parameter physical-unit lookup
(`baseParameterUnit`).

Embedding choices:
* real numbers model the floating-point values (the claims are about the
  exact mathematical formulas, which the source implements directly);
* the parameter vector `params` is a function `Fin 4 → ℝ`, matching the
  source's indexing `params[0] .. params[3]`;
* the input sample sequence `xdata` is a `List ℝ`; the elementwise numpy
  broadcasts become `List.map` of a per-point function;
* `basePartial`'s optional `parlist` argument is `Option (List (Fin 4))`
  (the source's dict lookup `parts[kp]` is only defined for indices 0..3);
* the framework attributes `npbase` and `npmax` are both 4, the value the
  constructor passes to the base class.
-/

noncomputable section

namespace PositiveEtalonModel

/-- Per-point body of `baseResult`:
`x = math.pi * xdata * params[2] + params[3]; sx = numpy.sin(x);
return params[0] / (1.0 + params[1]*params[1]*sx*sx)`. -/
def baseResultPoint (params : Fin 4 → ℝ) (xd : ℝ) : ℝ :=
  let x := Real.pi * xd * params 2 + params 3
  let sx := Real.sin x
  params 0 / (1 + params 1 * params 1 * sx * sx)

/-- `baseResult`: the model value, elementwise over the sample sequence. -/
def baseResult (xdata : List ℝ) (params : Fin 4 → ℝ) : List ℝ :=
  xdata.map (baseResultPoint params)

/-- Per-point body of `baseDerivative`:
`x = math.pi * xdata * params[2] + params[3]; sx = numpy.sin(x);
dd = 1 + params[1]*params[1]*sx*sx; dd *= dd;
return -2*math.pi*params[0]*params[1]*params[1]*params[2]*sx*numpy.cos(x)/dd`. -/
def baseDerivativePoint (params : Fin 4 → ℝ) (xd : ℝ) : ℝ :=
  let x := Real.pi * xd * params 2 + params 3
  let sx := Real.sin x
  let dd := 1 + params 1 * params 1 * sx * sx
  let dd2 := dd * dd;
  -2 * Real.pi * params 0 * params 1 * params 1 * params 2 * sx * Real.cos x / dd2

/-- `baseDerivative`: df/dx, elementwise over the sample sequence. -/
def baseDerivative (xdata : List ℝ) (params : Fin 4 → ℝ) : List ℝ :=
  xdata.map (baseDerivativePoint params)

/-- Per-point, per-parameter body of `basePartial`: the shared intermediates
`x, sx, s2, dd = 1/(1 + params[1]*params[1]*s2), d2 = dd*dd,
p3 = -2*params[0]*params[1]*params[1]*sx*cos(x)*d2` and the dispatch table
`parts = {0: dd, 1: -2*params[0]*params[1]*s2*d2, 2: math.pi*xdata*p3, 3: p3}`,
here a 4-vector indexed by the requested parameter. -/
def basePartialRow (params : Fin 4 → ℝ) (xd : ℝ) (kp : Fin 4) : ℝ :=
  let x := Real.pi * xd * params 2 + params 3
  let sx := Real.sin x
  let s2 := sx * sx
  let dd := 1 / (1 + params 1 * params 1 * s2)
  let d2 := dd * dd
  let p3 := -2 * params 0 * params 1 * params 1 * sx * Real.cos x * d2;
  ![dd, -2 * params 0 * params 1 * s2 * d2, Real.pi * xd * p3, p3] kp

/-- `basePartial`: the (N, K) matrix of partials, one row per sample point;
column k of a row holds the partial for parameter `parlist[k]`
(`for k,kp in enumerate(parlist): partial[:,k] = parts[kp]()`), and
`parlist = range(self.npmax)`, i.e. `[0,1,2,3]`, when none is supplied. -/
def basePartial (xdata : List ℝ) (params : Fin 4 → ℝ)
    (parlist : Option (List (Fin 4))) : List (List ℝ) :=
  let pl := match parlist with
    | none => [0, 1, 2, 3]
    | some l => l
  xdata.map fun xd => pl.map fun kp => basePartialRow params xd kp

/-- `baseParameterUnit`: per-parameter physical unit. The astropy unit
algebra is abstracted to a type with division; `yUnit` and `xUnit` are the
framework-configured axis units, `rad` stands for `units.Unit(units.si.rad)`
and `dimensionless` for `units.Unit("")`, both constants independent of the
configured axis units. The source is the if-chain on `k` with a final
`return self.yUnit` fallback. -/
def baseParameterUnit {U : Type} [Div U] (yUnit xUnit rad dimensionless : U)
    (k : ℕ) : U :=
  if k = 0 then yUnit
  else if k = 1 then dimensionless
  else if k = 2 then rad / xUnit
  else if k = 3 then rad
  else yUnit

end PositiveEtalonModel

namespace PositiveEtalonModel

/-- C1: for every parameter vector p and sample sequence x, `baseResult`
equals, elementwise, `p0 / (1 + p1^2 * sin^2(pi * x * p2 + p3))`. -/
theorem baseResult_closed_form (p : Fin 4 → ℝ) (x : List ℝ) :
    baseResult x p = x.map (fun t =>
      p 0 / (1 + (p 1) ^ 2 * Real.sin (Real.pi * t * p 2 + p 3) ^ 2)) := by
  unfold baseResult baseResultPoint
  refine List.map_congr_left fun t _ => ?_
  ring_nf

/-- C2: for every parameter vector p and sample sequence x, `baseDerivative`
equals, elementwise, the exact closed form
`-2*pi * p0 * p1^2 * p2 * sin(phase_arg) * cos(phase_arg) / denom^2` with
`phase_arg = pi*x*p2 + p3` and `denom = 1 + p1^2 * sin^2(phase_arg)`. -/
theorem baseDerivative_closed_form (p : Fin 4 → ℝ) (x : List ℝ) :
    baseDerivative x p = x.map (fun t =>
      -2 * Real.pi * p 0 * (p 1) ^ 2 * p 2 *
        Real.sin (Real.pi * t * p 2 + p 3) * Real.cos (Real.pi * t * p 2 + p 3) /
        (1 + (p 1) ^ 2 * Real.sin (Real.pi * t * p 2 + p 3) ^ 2) ^ 2) := by
  unfold baseDerivative baseDerivativePoint
  refine List.map_congr_left fun t _ => ?_
  ring_nf

/-- C3: with no selection list, `basePartial` returns, per sample point, the
four columns `1/denom`, `-2*p0*p1*sin^2(phase_arg)/denom^2`,
`pi*x*p3term` and `p3term`, with
`p3term = -2*p0*p1^2*sin(phase_arg)*cos(phase_arg)/denom^2`. -/
theorem basePartial_natural_columns (p : Fin 4 → ℝ) (x : List ℝ) :
    basePartial x p none = x.map (fun t =>
      [1 / (1 + (p 1) ^ 2 * Real.sin (Real.pi * t * p 2 + p 3) ^ 2),
       -2 * p 0 * p 1 * Real.sin (Real.pi * t * p 2 + p 3) ^ 2 /
         (1 + (p 1) ^ 2 * Real.sin (Real.pi * t * p 2 + p 3) ^ 2) ^ 2,
       Real.pi * t *
         (-2 * p 0 * (p 1) ^ 2 * Real.sin (Real.pi * t * p 2 + p 3) *
           Real.cos (Real.pi * t * p 2 + p 3) /
           (1 + (p 1) ^ 2 * Real.sin (Real.pi * t * p 2 + p 3) ^ 2) ^ 2),
       -2 * p 0 * (p 1) ^ 2 * Real.sin (Real.pi * t * p 2 + p 3) *
         Real.cos (Real.pi * t * p 2 + p 3) /
         (1 + (p 1) ^ 2 * Real.sin (Real.pi * t * p 2 + p 3) ^ 2) ^ 2]) := by
  unfold basePartial basePartialRow
  refine List.map_congr_left fun t _ => ?_
  have hsq : (0:ℝ) ≤ (p 1 * Real.sin (Real.pi * t * p 2 + p 3)) *
      (p 1 * Real.sin (Real.pi * t * p 2 + p 3)) := mul_self_nonneg _
  have hd1 : (1 + p 1 * p 1 *
      (Real.sin (Real.pi * t * p 2 + p 3) * Real.sin (Real.pi * t * p 2 + p 3))) ≠ 0 := by
    nlinarith
  have hd2 : (1 + (p 1) ^ 2 * Real.sin (Real.pi * t * p 2 + p 3) ^ 2) ≠ 0 := by
    positivity
  simp only [List.map_cons, List.map_nil, Matrix.cons_val_zero, Matrix.cons_val_one,
    Matrix.head_cons, Matrix.cons_val_two, Matrix.tail_cons, Matrix.cons_val_three,
    List.cons.injEq, and_true]
  refine ⟨?_, ?_, ?_, ?_⟩ <;> (field_simp; ring_nf)

/-- C7: the x-derivative equals `pi * p2` times the phase partial
(parameter index 3) computed by `basePartial`, elementwise. -/
theorem baseDerivative_eq_pi_p2_mul_phase_partial (p : Fin 4 → ℝ) (x : List ℝ) :
    baseDerivative x p = x.map (fun t => Real.pi * p 2 * basePartialRow p t 3) := by
  unfold baseDerivative baseDerivativePoint basePartialRow
  refine List.map_congr_left fun t _ => ?_
  have hsq : (0:ℝ) ≤ (p 1 * Real.sin (Real.pi * t * p 2 + p 3)) *
      (p 1 * Real.sin (Real.pi * t * p 2 + p 3)) := mul_self_nonneg _
  have hd1 : (1 + p 1 * p 1 *
      (Real.sin (Real.pi * t * p 2 + p 3) * Real.sin (Real.pi * t * p 2 + p 3))) ≠ 0 := by
    nlinarith
  have hd1' : (1 + p 1 * p 1 * Real.sin (Real.pi * t * p 2 + p 3) *
      Real.sin (Real.pi * t * p 2 + p 3)) ≠ 0 := by
    nlinarith
  simp only [Matrix.cons_val_three, Matrix.tail_cons, Matrix.head_cons]
  field_simp
  ring_nf

/-- Helper: `getD` commutes with `map` at an in-bounds index, for any defaults. -/
theorem getD_map_of_lt {α β : Type} (f : α → β) (l : List α) (d : β) (d' : α)
    (i : ℕ) (h : i < l.length) : (l.map f).getD i d = f (l.getD i d') := by
  rw [List.getD_eq_getElem _ _ (by simp only [List.length_map]; exact h),
    List.getElem_map, List.getD_eq_getElem _ _ h]

/-- C4: entry (i, k) of `basePartial` with selection list L is the partial
for parameter `L[k]`, i.e. entry (i, L[k]) of the natural-order matrix;
with no selection list the columns are the four partials in natural order;
and selection list [3, 0] yields a 2-column matrix whose columns are the
natural columns 3 and 0. -/
theorem basePartial_selection_order (x : List ℝ) (p : Fin 4 → ℝ) (L : List (Fin 4)) :
    (∀ i k, i < x.length → k < L.length →
      ((basePartial x p (some L)).getD i []).getD k 0 =
        ((basePartial x p none).getD i []).getD (L.getD k 0).val 0) ∧
    basePartial x p none =
      x.map (fun t => (([0, 1, 2, 3] : List (Fin 4)).map (basePartialRow p t))) ∧
    basePartial x p (some [3, 0]) =
      x.map (fun t => [basePartialRow p t 3, basePartialRow p t 0]) := by
  refine ⟨fun i k hi hk => ?_, rfl, rfl⟩
  have e1 : ((basePartial x p (some L)).getD i []) =
      L.map (basePartialRow p (x.getD i 0)) := by
    unfold basePartial
    dsimp only
    exact getD_map_of_lt _ x [] 0 i hi
  have e2 : ((basePartial x p none).getD i []) =
      ([0, 1, 2, 3] : List (Fin 4)).map (basePartialRow p (x.getD i 0)) := by
    unfold basePartial
    dsimp only
    exact getD_map_of_lt _ x [] 0 i hi
  have hv : (L.getD k 0).val < ([0, 1, 2, 3] : List (Fin 4)).length := by
    simp only [List.length_cons, List.length_nil]
    exact (L.getD k 0).isLt
  rw [e1, e2, getD_map_of_lt _ L 0 0 k hk, getD_map_of_lt _ _ 0 0 _ hv]
  congr 1
  have h4 : ∀ j : Fin 4, (([0, 1, 2, 3] : List (Fin 4)).getD j.val 0) = j := by
    decide
  exact (h4 (L.getD k 0)).symm

/-- C4 witness: at x = [1], p = ![1, 1, 1, 0], L = [3, 0], the (0,0) entry of
the selected matrix equals the (0,3) entry of the natural matrix. -/
theorem basePartial_selection_order_witness :
    ((basePartial [1] ![1, 1, 1, 0] (some [3, 0])).getD 0 []).getD 0 0 =
      ((basePartial [1] ![1, 1, 1, 0] none).getD 0 []).getD 3 0 :=
  (basePartial_selection_order [1] ![1, 1, 1, 0] [3, 0]).1 0 0 (by decide) (by decide)

/-- C5: the denominator `1 + p1^2 * s^2` is at least 1 (in particular nonzero)
for all real p1 and s, and consequently the model value is bounded:
`0 ≤ |baseResultPoint p t| ≤ |p 0|`. -/
theorem baseResult_denom_ge_one_and_bounded (p : Fin 4 → ℝ) (t : ℝ) :
    (∀ p1 s : ℝ, 1 ≤ 1 + p1 ^ 2 * s ^ 2 ∧ 1 + p1 ^ 2 * s ^ 2 ≠ 0) ∧
    0 ≤ |baseResultPoint p t| ∧ |baseResultPoint p t| ≤ |p 0| := by
  have key : ∀ p1 s : ℝ, 1 ≤ 1 + p1 ^ 2 * s ^ 2 := by
    intro p1 s
    have : (0:ℝ) ≤ p1 ^ 2 * s ^ 2 := by positivity
    linarith
  refine ⟨fun p1 s => ⟨key p1 s, by have := key p1 s; linarith⟩, abs_nonneg _, ?_⟩
  unfold baseResultPoint
  have hd : 1 ≤ 1 + p 1 * p 1 * Real.sin (Real.pi * t * p 2 + p 3) *
      Real.sin (Real.pi * t * p 2 + p 3) := by
    have := key (p 1) (Real.sin (Real.pi * t * p 2 + p 3))
    nlinarith
  rw [abs_div, abs_of_pos (by linarith : (0:ℝ) < 1 + p 1 * p 1 *
      Real.sin (Real.pi * t * p 2 + p 3) * Real.sin (Real.pi * t * p 2 + p 3))]
  exact div_le_self (abs_nonneg _) hd

/-- C6: the model value is periodic in the phase parameter p3 with period pi,
and invariant under negation of p1, elementwise over the sample sequence. -/
theorem baseResult_symmetries (p0 p1 p2 p3 : ℝ) (x : List ℝ) :
    baseResult x ![p0, p1, p2, p3 + Real.pi] = baseResult x ![p0, p1, p2, p3] ∧
    baseResult x ![p0, -p1, p2, p3] = baseResult x ![p0, p1, p2, p3] := by
  constructor
  · refine List.map_congr_left fun t _ => ?_
    unfold baseResultPoint
    simp only [Matrix.cons_val_zero, Matrix.cons_val_one, Matrix.head_cons,
      Matrix.cons_val_two, Matrix.tail_cons, Matrix.cons_val_three]
    rw [show Real.pi * t * p2 + (p3 + Real.pi) = (Real.pi * t * p2 + p3) + Real.pi by ring,
      Real.sin_add_pi]
    ring_nf
  · refine List.map_congr_left fun t _ => ?_
    unfold baseResultPoint
    simp only [Matrix.cons_val_zero, Matrix.cons_val_one, Matrix.head_cons,
      Matrix.cons_val_two, Matrix.tail_cons, Matrix.cons_val_three]
    ring_nf

/-- C8: for p = [1, 30, 1, 0] and x = [0, 1/2, 1], the model value is
exactly [1, 1/901, 1]. -/
theorem baseResult_concrete_scenario :
    baseResult [0, 1/2, 1] ![1, 30, 1, 0] = [1, 1/901, 1] := by
  unfold baseResult baseResultPoint
  simp only [List.map_cons, List.map_nil, Matrix.cons_val_zero, Matrix.cons_val_one,
    Matrix.head_cons, Matrix.cons_val_two, Matrix.tail_cons, Matrix.cons_val_three]
  rw [show Real.pi * 0 * 1 + 0 = 0 by ring,
    show Real.pi * (1/2) * 1 + 0 = Real.pi / 2 by ring,
    show Real.pi * 1 * 1 + 0 = Real.pi by ring,
    Real.sin_zero, Real.sin_pi_div_two, Real.sin_pi]
  norm_num

/-- C9: the unit lookup returns the y-axis unit for k = 0, the dimensionless
unit for k = 1 (whatever the axis units are), radians divided by the x-axis
unit for k = 2, radians for k = 3, and falls back to the y-axis unit for any
other index. -/
theorem baseParameterUnit_spec {U : Type} [Div U] (yUnit xUnit rad dimensionless : U) :
    baseParameterUnit yUnit xUnit rad dimensionless 0 = yUnit ∧
    baseParameterUnit yUnit xUnit rad dimensionless 1 = dimensionless ∧
    baseParameterUnit yUnit xUnit rad dimensionless 2 = rad / xUnit ∧
    baseParameterUnit yUnit xUnit rad dimensionless 3 = rad ∧
    ∀ k : ℕ, 3 < k → baseParameterUnit yUnit xUnit rad dimensionless k = yUnit := by
  refine ⟨rfl, rfl, rfl, rfl, fun k hk => ?_⟩
  unfold baseParameterUnit
  rw [if_neg (by omega), if_neg (by omega), if_neg (by omega), if_neg (by omega)]

/-- C9 witness: over ℚ with yUnit = 2, xUnit = 3, rad = 5, dimensionless = 7,
index 1 gives the dimensionless unit and index 9 falls back to the y unit. -/
theorem baseParameterUnit_spec_witness :
    baseParameterUnit (2 : ℚ) 3 5 7 1 = 7 ∧ baseParameterUnit (2 : ℚ) 3 5 7 9 = 2 :=
  ⟨(baseParameterUnit_spec 2 3 5 7).2.1,
   (baseParameterUnit_spec 2 3 5 7).2.2.2.2 9 (by norm_num)⟩

end PositiveEtalonModel
